import Mathlib

/-!
Verification of the POA quantitative pricing library.

Each Python module is shallowly embedded: pure arithmetic code becomes
functions over `ℚ` (when only field operations occur) or `ℝ` (when
`math.exp`, `math.log`, `math.sqrt` or the normal CDF occur); Python
exceptions (ZeroDivisionError on float division by zero, ValueError on
`math.log`/`math.sqrt` domain errors) become `Option` results; the
optimizer's random source becomes an explicit list of drawn values.
-/

open MeasureTheory Set

namespace POA

/-! Section: Bond pricing — `src/models/bond_pricing.py`

Only field operations occur, so the embedding is over exact rationals. -/

structure BondPricing where
  face_value : ℚ
  coupon_rate : ℚ
  maturity : ℕ
  market_rate : ℚ

/-- Method `coupon_payment(t)` ignores `t`: `face_value * coupon_rate`. -/
def BondPricing.coupon_payment (b : BondPricing) (_t : ℕ) : ℚ :=
  b.face_value * b.coupon_rate

/-- Method `price()`: the loop `for t in range(1, maturity+1)` accumulates
`coupon_payment(t) / (1+market_rate)**t`, then adds
`face_value / (1+market_rate)**maturity`. -/
def BondPricing.price (b : BondPricing) : ℚ :=
  (Finset.range b.maturity).sum
      (fun k => b.coupon_payment (k + 1) / (1 + b.market_rate) ^ (k + 1))
    + b.face_value / (1 + b.market_rate) ^ b.maturity

lemma coupon_discount_telescope (r : ℚ) (hr : 1 + r ≠ 0) (k : ℕ) :
    r / (1 + r) ^ (k + 1) = 1 / (1 + r) ^ k - 1 / (1 + r) ^ (k + 1) := by
  have hk : (1 + r) ^ k ≠ 0 := pow_ne_zero _ hr
  have hk1 : (1 + r) ^ (k + 1) ≠ 0 := pow_ne_zero _ hr
  field_simp
  ring

lemma sum_coupon_discount (r : ℚ) (hr : 1 + r ≠ 0) (N : ℕ) :
    (Finset.range N).sum (fun k => r / (1 + r) ^ (k + 1))
      = 1 - 1 / (1 + r) ^ N := by
  have h : (Finset.range N).sum (fun k => r / (1 + r) ^ (k + 1))
      = (Finset.range N).sum
          (fun k => 1 / (1 + r) ^ k - 1 / (1 + r) ^ (k + 1)) :=
    Finset.sum_congr rfl (fun k _ => coupon_discount_telescope r hr k)
  rw [h, Finset.sum_range_sub' (fun k => 1 / (1 + r) ^ k) N]
  simp

/-- C1. A bond whose coupon rate equals the market rate is priced at par:
for maturity ≥ 1 and market rate > −1, `price()` returns exactly the face
value. -/
theorem bond_price_at_par (b : BondPricing) (hN : 1 ≤ b.maturity)
    (hr : -1 < b.market_rate) (hc : b.coupon_rate = b.market_rate) :
    b.price = b.face_value := by
  have hne : 1 + b.market_rate ≠ 0 := by linarith
  have hpow : (1 + b.market_rate) ^ b.maturity ≠ 0 := pow_ne_zero _ hne
  unfold BondPricing.price BondPricing.coupon_payment
  rw [hc]
  have hsum : (Finset.range b.maturity).sum
      (fun k => b.face_value * b.market_rate / (1 + b.market_rate) ^ (k + 1))
      = b.face_value * ((Finset.range b.maturity).sum
          (fun k => b.market_rate / (1 + b.market_rate) ^ (k + 1))) := by
    rw [Finset.mul_sum]
    exact Finset.sum_congr rfl (fun k _ => by ring)
  rw [hsum, sum_coupon_discount _ hne]
  field_simp
  ring

/-- Witness for C1: a 10-year 5% bond at a 5% market rate prices at 1000. -/
theorem bond_price_at_par_witness :
    BondPricing.price ⟨1000, 1/20, 10, 1/20⟩ = 1000 :=
  bond_price_at_par ⟨1000, 1/20, 10, 1/20⟩ (by norm_num) (by norm_num) rfl

/-! Section: Futures pricing — `src/models/futures_pricing.py` -/

structure FuturesPricing where
  spot_price : ℝ
  strike_price : ℝ
  time_to_expiration : ℝ
  risk_free_rate : ℝ
  volatility : ℝ

/-- Method `calculate_futures_price()`: cost-of-carry, `spot * exp(r * T)`. -/
noncomputable def FuturesPricing.calculate_futures_price (f : FuturesPricing) : ℝ :=
  f.spot_price * Real.exp (f.risk_free_rate * f.time_to_expiration)

/-- Method `price_sensitivity()`: `(calculate_futures_price() - spot) / spot`. -/
noncomputable def FuturesPricing.price_sensitivity (f : FuturesPricing) : ℝ :=
  (f.calculate_futures_price - f.spot_price) / f.spot_price

/-- C10. For spot ≠ 0, `price_sensitivity()` equals `e^(r·T) − 1`, hence
it does not depend on the spot price: two contracts differing only in spot
have equal sensitivity. -/
theorem price_sensitivity_spot_free (f g : FuturesPricing)
    (hf : f.spot_price ≠ 0) (hg : g.spot_price ≠ 0)
    (hk : f.strike_price = g.strike_price)
    (ht : f.time_to_expiration = g.time_to_expiration)
    (hr : f.risk_free_rate = g.risk_free_rate)
    (hv : f.volatility = g.volatility) :
    f.price_sensitivity
        = Real.exp (f.risk_free_rate * f.time_to_expiration) - 1
      ∧ f.price_sensitivity = g.price_sensitivity := by
  have key : ∀ x : FuturesPricing, x.spot_price ≠ 0 →
      x.price_sensitivity
        = Real.exp (x.risk_free_rate * x.time_to_expiration) - 1 := by
    intro x hx
    unfold FuturesPricing.price_sensitivity FuturesPricing.calculate_futures_price
    field_simp
    ring
  refine ⟨key f hf, ?_⟩
  rw [key f hf, key g hg, hr, ht]

/-- Witness for C10: spot 100 and spot 200 contracts at r = 0, T = 1 share
sensitivity `e^0 − 1`. -/
theorem price_sensitivity_spot_free_witness :
    FuturesPricing.price_sensitivity ⟨100, 105, 1, 0, 1/5⟩
        = Real.exp (0 * 1) - 1
      ∧ FuturesPricing.price_sensitivity ⟨100, 105, 1, 0, 1/5⟩
        = FuturesPricing.price_sensitivity ⟨200, 105, 1, 0, 1/5⟩ :=
  price_sensitivity_spot_free ⟨100, 105, 1, 0, 1/5⟩ ⟨200, 105, 1, 0, 1/5⟩
    (by norm_num) (by norm_num) rfl rfl rfl rfl

/-! Section: Swap pricing — `src/models/swap_pricing.py`

`swap_data` rows are records whose fields may be missing (`row.get` with a
default). The discount rate is fetched externally at construction; it is a
parameter here. Inside the batch loop, the only reachable exception for
well-typed numeric rows is the ZeroDivisionError raised by
`/(1+discount_rate)**maturity` when that power is zero; the `except` clause
skips such a row. -/

structure SwapRecord where
  rate : Option ℚ
  tenor : Option ℕ
  currency_pair : Option String

/-- Result of `calculate_prices`: either the bare float sentinel `0.0` or a
dict keyed by currency pair. -/
inductive SwapResult where
  | sentinel (v : ℚ)
  | prices (m : List (String × ℚ))
deriving DecidableEq

/-- Method `calculate_fixed_leg(notional, fixed_rate, maturity)`. -/
def SwapPricing.calculate_fixed_leg (notional fixed_rate : ℚ) (maturity : ℕ) : ℚ :=
  notional * fixed_rate * maturity

/-- Method `calculate_floating_leg(notional, floating_rates)`. -/
def SwapPricing.calculate_floating_leg (notional : ℚ) (floating_rates : List ℚ) : ℚ :=
  (floating_rates.map (fun r => notional * r)).sum

/-- Method `net_present_value(notional, fixed_rate, floating_rates, maturity)` with
the instance's discount rate passed explicitly. -/
def SwapPricing.net_present_value (discount_rate notional fixed_rate : ℚ)
    (floating_rates : List ℚ) (maturity : ℕ) : ℚ :=
  SwapPricing.calculate_fixed_leg notional fixed_rate maturity
      / (1 + discount_rate) ^ maturity
    - SwapPricing.calculate_floating_leg notional floating_rates
      / (1 + discount_rate) ^ maturity

/-- One iteration of the `calculate_prices` loop body: defaults
`rate → 0.02`, `tenor → 5`, `currency_pair → "USD"`; `none` models the
row being skipped by the `except` clause (division by zero). -/
def SwapPricing.price_record (discount_rate : ℚ) (row : SwapRecord) :
    Option (String × ℚ) :=
  let fixed_rate := row.rate.getD (1/50)
  let maturity := row.tenor.getD 5
  if (1 + discount_rate) ^ maturity = 0 then none
  else some (row.currency_pair.getD "USD",
    SwapPricing.net_present_value discount_rate 1000000 fixed_rate
      [fixed_rate] maturity)

/-- Python dict assignment `d[k] = v`: overwrite in place if the key exists,
else append. -/
def dictInsert (m : List (String × ℚ)) (k : String) (v : ℚ) :
    List (String × ℚ) :=
  if m.any (fun kv => kv.1 = k) then
    m.map (fun kv => if kv.1 = k then (k, v) else kv)
  else m ++ [(k, v)]

/-- The loop of `calculate_prices()`: fold the rows into the `swap_prices`
dict, skipping failed rows. -/
def SwapPricing.batch_fold (discount_rate : ℚ)
    (swap_data : List SwapRecord) : List (String × ℚ) :=
  swap_data.foldl (fun acc row =>
    match SwapPricing.price_record discount_rate row with
    | none => acc
    | some (k, v) => dictInsert acc k v) []

/-- Method `calculate_prices()`: empty batch → sentinel `0.0`; otherwise fold the
rows into a dict, and if the dict stayed empty (every row failed) return the
sentinel `0.0`, else the dict. -/
def SwapPricing.calculate_prices (discount_rate : ℚ)
    (swap_data : List SwapRecord) : SwapResult :=
  if swap_data.isEmpty then .sentinel 0
  else if (SwapPricing.batch_fold discount_rate swap_data).isEmpty then .sentinel 0
  else .prices (SwapPricing.batch_fold discount_rate swap_data)

lemma dictInsert_ne_nil (m : List (String × ℚ)) (k : String) (v : ℚ) :
    dictInsert m k v ≠ [] := by
  unfold dictInsert
  by_cases h : m.any (fun kv => kv.1 = k)
  · simp only [h, if_true]
    intro hm
    rcases List.map_eq_nil_iff.mp hm with rfl
    simp at h
  · simp [h]

lemma swap_fold_ne_nil (discount_rate : ℚ) :
    ∀ (data : List SwapRecord) (acc : List (String × ℚ)), acc ≠ [] →
      data.foldl (fun acc row =>
        match SwapPricing.price_record discount_rate row with
        | none => acc
        | some (k, v) => dictInsert acc k v) acc ≠ []
  | [], acc, h => h
  | row :: rest, acc, h => by
    simp only [List.foldl_cons]
    cases hrec : SwapPricing.price_record discount_rate row with
    | none => exact swap_fold_ne_nil discount_rate rest acc h
    | some kv =>
      exact swap_fold_ne_nil discount_rate rest _ (dictInsert_ne_nil acc kv.1 kv.2)

lemma swap_fold_all_none (discount_rate : ℚ) :
    ∀ (data : List SwapRecord) (acc : List (String × ℚ)),
      (∀ row ∈ data, SwapPricing.price_record discount_rate row = none) →
      data.foldl (fun acc row =>
        match SwapPricing.price_record discount_rate row with
        | none => acc
        | some (k, v) => dictInsert acc k v) acc = acc
  | [], _, _ => rfl
  | row :: rest, acc, h => by
    simp only [List.foldl_cons]
    rw [h row (by simp)]
    exact swap_fold_all_none discount_rate rest acc
      (fun r hr => h r (List.mem_cons_of_mem _ hr))

lemma swap_batch_fold_some_ne_nil (discount_rate : ℚ) :
    ∀ (data : List SwapRecord),
      (∃ row ∈ data, (SwapPricing.price_record discount_rate row).isSome) →
      SwapPricing.batch_fold discount_rate data ≠ []
  | [], h => by simp at h
  | row :: rest, h => by
    unfold SwapPricing.batch_fold
    simp only [List.foldl_cons]
    cases hrec : SwapPricing.price_record discount_rate row with
    | none =>
      rcases h with ⟨r, hr, hsome⟩
      rcases List.mem_cons.mp hr with rfl | hr
      · rw [hrec] at hsome; simp at hsome
      · exact swap_batch_fold_some_ne_nil discount_rate rest ⟨r, hr, hsome⟩
    | some kv =>
      exact swap_fold_ne_nil discount_rate rest _ (dictInsert_ne_nil [] kv.1 kv.2)

/-- C9: `calculate_prices()` returns the sentinel `0.0` on an empty
batch and when every record fails; with at least one successful record it
returns a non-empty mapping keyed by currency pair; missing fields default
to `rate = 0.02`, `tenor = 5`, `currency_pair = "USD"`. -/
theorem swap_calculate_prices_sentinel_and_defaults (discount_rate : ℚ)
    (data : List SwapRecord) :
    SwapPricing.calculate_prices discount_rate [] = .sentinel 0
  ∧ ((∀ row ∈ data, SwapPricing.price_record discount_rate row = none) →
      SwapPricing.calculate_prices discount_rate data = .sentinel 0)
  ∧ ((∃ row ∈ data, (SwapPricing.price_record discount_rate row).isSome) →
      ∃ m, SwapPricing.calculate_prices discount_rate data = .prices m ∧ m ≠ [])
  ∧ SwapPricing.price_record discount_rate ⟨none, none, none⟩
      = SwapPricing.price_record discount_rate ⟨some (1/50), some 5, some "USD"⟩ := by
  refine ⟨by simp [SwapPricing.calculate_prices], ?_, ?_, rfl⟩
  · intro hall
    by_cases hd : data.isEmpty
    · unfold SwapPricing.calculate_prices
      simp [hd]
    · have hfold : SwapPricing.batch_fold discount_rate data = [] :=
        swap_fold_all_none discount_rate data [] hall
      unfold SwapPricing.calculate_prices
      simp [hd, hfold]
  · rintro ⟨row, hrow, hsome⟩
    have hd : data.isEmpty = false := by
      cases data with
      | nil => simp at hrow
      | cons a l => rfl
    have hne := swap_batch_fold_some_ne_nil discount_rate data ⟨row, hrow, hsome⟩
    have hf : (SwapPricing.batch_fold discount_rate data).isEmpty = false := by
      simp [List.isEmpty_iff, hne]
    refine ⟨SwapPricing.batch_fold discount_rate data, ?_, hne⟩
    unfold SwapPricing.calculate_prices
    rw [hd, hf]
    simp

/-- Witness for C9: the empty batch gives the sentinel, and a batch of one
all-defaults record gives a non-empty price mapping. -/
theorem swap_calculate_prices_witness :
    SwapPricing.calculate_prices (3/100) [] = .sentinel 0
  ∧ ∃ m, SwapPricing.calculate_prices (3/100) [⟨none, none, none⟩] = .prices m
      ∧ m ≠ [] := by
  have h := swap_calculate_prices_sentinel_and_defaults (3/100) [⟨none, none, none⟩]
  refine ⟨h.1, h.2.2.1 ⟨⟨none, none, none⟩, by simp, ?_⟩⟩
  rw [SwapPricing.price_record]
  norm_num

/-! Section: Portfolio optimization — `src/optimization/portfolio_optimization.py`

The random source (`np.random.random(num_assets)`, one vector per sample)
is passed explicitly as a list of draw vectors. `np.dot` becomes `dotR` /
`matVec`. The float obtained from the unguarded division
`(portfolio_return - risk_free_rate) / portfolio_volatility` is modelled as
`Option ℝ`: `none` stands for the non-finite value NumPy produces when the
divisor `portfolio_volatility` is zero. -/

structure PortfolioOptimization where
  returns : List ℝ
  cov_matrix : List (List ℝ)

structure PortfolioSample where
  weights : List ℝ
  portfolio_return : ℝ
  portfolio_volatility : ℝ
  sharpe_ratio : Option ℝ
deriving Inhabited

/-- NumPy `np.dot` of two vectors. -/
def dotR (xs ys : List ℝ) : ℝ :=
  ((xs.zip ys).map (fun q => q.1 * q.2)).sum

/-- NumPy `np.dot` of a matrix and a vector. -/
def matVec (m : List (List ℝ)) (v : List ℝ) : List ℝ :=
  m.map (fun row => dotR row v)

/-- Method `mean_variance_optimization(risk_free_rate)` with the vector drawn by
`np.random.random(num_assets)` passed in as `draws`. -/
noncomputable def PortfolioOptimization.mean_variance_optimization
    (p : PortfolioOptimization) (risk_free_rate : ℝ) (draws : List ℝ) :
    PortfolioSample :=
  let weights := draws.map (fun x => x / draws.sum)
  let portfolio_return := dotR weights p.returns
  let portfolio_volatility :=
    Real.sqrt (dotR weights (matVec p.cov_matrix weights))
  { weights := weights
    portfolio_return := portfolio_return
    portfolio_volatility := portfolio_volatility
    sharpe_ratio :=
      if portfolio_volatility = 0 then none
      else some ((portfolio_return - risk_free_rate) / portfolio_volatility) }

/-- Method `optimize_portfolio(num_portfolios, risk_free_rate)`: one sample per
draw vector; `num_portfolios = drawss.length`. The Python code returns the
per-sample metrics array and the weights record side by side, indexed
identically; here both live in one list of samples. -/
noncomputable def PortfolioOptimization.optimize_portfolio
    (p : PortfolioOptimization) (risk_free_rate : ℝ)
    (drawss : List (List ℝ)) : List PortfolioSample :=
  drawss.map (p.mean_variance_optimization risk_free_rate)

/-- The float NumPy records in `results[2, i]`: finite, `+inf`, `-inf` or
NaN. The `Option ℝ` field of `PortfolioSample` collapses all three
non-finite cases to `none`; this type keeps them apart, because
`np.argmax` treats them differently. -/
inductive NpFloat where
  | finite (x : ℝ)
  | posInf
  | negInf
  | nan

/-- IEEE-754 `>` on the recorded floats: any comparison involving NaN is
false; otherwise `-inf < finite < +inf` with reals ordered as usual. -/
noncomputable def npGt : NpFloat → NpFloat → Bool
  | NpFloat.nan, _ => false
  | _, NpFloat.nan => false
  | NpFloat.posInf, NpFloat.posInf => false
  | NpFloat.posInf, _ => true
  | _, NpFloat.posInf => false
  | NpFloat.finite x, NpFloat.finite y => decide (y < x)
  | NpFloat.finite _, NpFloat.negInf => true
  | NpFloat.negInf, _ => false

/-- IEEE-754 `>=` on the recorded floats: false whenever NaN is involved. -/
noncomputable def npGe : NpFloat → NpFloat → Bool
  | NpFloat.nan, _ => false
  | _, NpFloat.nan => false
  | NpFloat.posInf, _ => true
  | _, NpFloat.posInf => false
  | NpFloat.finite x, NpFloat.finite y => decide (y ≤ x)
  | NpFloat.finite _, NpFloat.negInf => true
  | NpFloat.negInf, NpFloat.finite _ => false
  | NpFloat.negInf, NpFloat.negInf => true

/-- The real carried by a finite recorded float (0 on the non-finite
constructors; used only after finiteness is established). -/
def NpFloat.val : NpFloat → ℝ
  | NpFloat.finite x => x
  | NpFloat.posInf => 0
  | NpFloat.negInf => 0
  | NpFloat.nan => 0

/-- The Sharpe float `results[2, i]` exactly as NumPy computes it from the
draw vector: with `w` the normalized weights, `q = wᵀ·Cov·w`; if `q < 0`
then `np.sqrt(q)` is NaN and so is the quotient; if the volatility
`sqrt(q)` is zero, dividing by `0.0` gives `+inf`, `-inf` or NaN according
to the sign of `expectedReturn − riskFreeRate`; otherwise the finite
quotient. -/
noncomputable def sharpeFloatOf (returns : List ℝ) (cov : List (List ℝ))
    (rf : ℝ) (draws : List ℝ) : NpFloat :=
  if dotR (draws.map (fun x => x / draws.sum))
      (matVec cov (draws.map (fun x => x / draws.sum))) < 0 then NpFloat.nan
  else if Real.sqrt (dotR (draws.map (fun x => x / draws.sum))
      (matVec cov (draws.map (fun x => x / draws.sum)))) = 0 then
    (if 0 < dotR (draws.map (fun x => x / draws.sum)) returns - rf then
      NpFloat.posInf
     else if dotR (draws.map (fun x => x / draws.sum)) returns - rf < 0 then
      NpFloat.negInf
     else NpFloat.nan)
  else NpFloat.finite
    ((dotR (draws.map (fun x => x / draws.sum)) returns - rf)
      / Real.sqrt (dotR (draws.map (fun x => x / draws.sum))
          (matVec cov (draws.map (fun x => x / draws.sum)))))

/-- The `results[2]` row recorded by `optimize_portfolio`: one Sharpe float
per draw vector. -/
noncomputable def PortfolioOptimization.recorded_sharpes
    (p : PortfolioOptimization) (rf : ℝ) (drawss : List (List ℝ)) :
    List NpFloat :=
  drawss.map (fun draws => sharpeFloatOf p.returns p.cov_matrix rf draws)

/-- First index of the maximum of a list of reals: the behavior of
`np.argmax` on all-finite float data. -/
noncomputable def npArgmax : List ℝ → ℕ
  | [] => 0
  | [_] => 0
  | x :: y :: ys =>
    if x < (y :: ys).getD (npArgmax (y :: ys)) 0 then npArgmax (y :: ys) + 1
    else 0

open Classical in
/-- NumPy `np.argmax` over the recorded floats: its scan keeps the current
best and updates only when the best is not NaN and the next entry is NaN
or strictly greater, so the first NaN (if any) wins, `+inf` is maximal,
`-inf` minimal, and ties go to the first occurrence. -/
noncomputable def npArgmaxF : List NpFloat → ℕ
  | [] => 0
  | [_] => 0
  | a :: b :: rest =>
    if a ≠ NpFloat.nan
        ∧ ((b :: rest).getD (npArgmaxF (b :: rest)) NpFloat.nan = NpFloat.nan
            ∨ npGt ((b :: rest).getD (npArgmaxF (b :: rest)) NpFloat.nan) a
                = true)
    then npArgmaxF (b :: rest) + 1
    else 0

/-- Method `get_optimal_weights(results, weights_record)`:
`max_sharpe_idx = np.argmax(results[2])` over the recorded Sharpe floats,
then the triple `(weights_record[idx], results[0, idx], results[1, idx])`.
`samples` bundles the `weights_record` entries with the `results[0]` and
`results[1]` columns (which coincide with the stored sample fields whenever
the run's quadratic forms are non-negative, in particular whenever the
recorded Sharpe floats are all finite). -/
noncomputable def PortfolioOptimization.get_optimal_weights
    (results2 : List NpFloat) (samples : List PortfolioSample) :
    List ℝ × ℝ × ℝ :=
  let idx := npArgmaxF results2
  ((samples.getD idx default).weights,
   (samples.getD idx default).portfolio_return,
   (samples.getD idx default).portfolio_volatility)

lemma npArgmax_lt_length : ∀ (l : List ℝ), l ≠ [] → npArgmax l < l.length
  | [_], _ => by simp [npArgmax]
  | x :: y :: ys, _ => by
    rw [npArgmax]
    by_cases h : x < (y :: ys).getD (npArgmax (y :: ys)) 0
    · rw [if_pos h]
      have ih := npArgmax_lt_length (y :: ys) (by simp)
      simp only [List.length_cons] at ih ⊢
      omega
    · rw [if_neg h]
      simp

lemma npArgmax_is_max : ∀ (l : List ℝ) (i : ℕ), i < l.length →
    l.getD i 0 ≤ l.getD (npArgmax l) 0
  | [_], 0, _ => le_refl _
  | x :: y :: ys, i, hi => by
    rw [npArgmax]
    by_cases h : x < (y :: ys).getD (npArgmax (y :: ys)) 0
    · rw [if_pos h]
      cases i with
      | zero => exact le_of_lt h
      | succ k =>
        exact npArgmax_is_max (y :: ys) k (by simpa using hi)
    · rw [if_neg h]
      cases i with
      | zero => exact le_refl _
      | succ k =>
        have hk := npArgmax_is_max (y :: ys) k (by simpa using hi)
        have hx : (y :: ys).getD (npArgmax (y :: ys)) 0 ≤ x := le_of_not_lt h
        exact le_trans hk hx

lemma npArgmax_first : ∀ (l : List ℝ) (j : ℕ), j < npArgmax l →
    l.getD j 0 < l.getD (npArgmax l) 0
  | [], j, hj => by simp [npArgmax] at hj
  | [_], j, hj => by simp [npArgmax] at hj
  | x :: y :: ys, j, hj => by
    rw [npArgmax] at hj ⊢
    by_cases h : x < (y :: ys).getD (npArgmax (y :: ys)) 0
    · rw [if_pos h] at hj ⊢
      cases j with
      | zero => exact h
      | succ k => exact npArgmax_first (y :: ys) k (by omega)
    · rw [if_neg h] at hj
      omega

lemma mean_variance_weights (p : PortfolioOptimization) (rf : ℝ)
    (draws : List ℝ) :
    (p.mean_variance_optimization rf draws).weights
      = draws.map (fun x => x / draws.sum) := rfl

lemma mean_variance_volatility (p : PortfolioOptimization) (rf : ℝ)
    (draws : List ℝ) :
    (p.mean_variance_optimization rf draws).portfolio_volatility
      = Real.sqrt (dotR (draws.map (fun x => x / draws.sum))
          (matVec p.cov_matrix (draws.map (fun x => x / draws.sum)))) := rfl

lemma mean_variance_sharpe (p : PortfolioOptimization) (rf : ℝ)
    (draws : List ℝ) :
    (p.mean_variance_optimization rf draws).sharpe_ratio
      = if (p.mean_variance_optimization rf draws).portfolio_volatility = 0
        then none
        else some (((p.mean_variance_optimization rf draws).portfolio_return
            - rf) / (p.mean_variance_optimization rf draws).portfolio_volatility) :=
  rfl

lemma getD_map_comm {α β : Type} (f : α → β) (da : α) (db : β) :
    ∀ (l : List α) (i : ℕ), i < l.length →
      (l.map f).getD i db = f (l.getD i da)
  | _ :: _, 0, _ => rfl
  | _ :: t, i + 1, h => getD_map_comm f da db t i (by simpa using h)

lemma getD_mem {α : Type} {l : List α} {i : ℕ} (h : i < l.length) (d : α) :
    l.getD i d ∈ l := by
  rw [List.getD_eq_getElem l d h]
  exact List.getElem_mem h

lemma list_sum_map_div (l : List ℝ) (c : ℝ) :
    (l.map (fun x => x / c)).sum = l.sum / c := by
  induction l with
  | nil => simp
  | cons a t ih => simp [ih, add_div]

/-- C7 (amended). Whenever the raw draws of a sample are non-negative
with positive sum — which holds for every output of
`np.random.random(num_assets)` except the measure-zero all-zeros vector —
every recorded weight vector has non-negative components and sums exactly
to 1, in particular within the 1e-9 tolerance. -/
theorem optimizer_weights_on_simplex (p : PortfolioOptimization)
    (risk_free_rate : ℝ) (drawss : List (List ℝ))
    (hpos : ∀ d ∈ drawss, (∀ x ∈ d, 0 ≤ x) ∧ 0 < d.sum) :
    ∀ s ∈ p.optimize_portfolio risk_free_rate drawss,
      (∀ w ∈ s.weights, 0 ≤ w) ∧ s.weights.sum = 1
        ∧ |s.weights.sum - 1| ≤ 1 / 1000000000 := by
  intro s hs
  rcases List.mem_map.mp hs with ⟨d, hd, rfl⟩
  rcases hpos d hd with ⟨hnn, hsum⟩
  rw [mean_variance_weights]
  have hsum1 : ((d.map (fun x => x / d.sum)).sum : ℝ) = 1 := by
    rw [list_sum_map_div]
    exact div_self (ne_of_gt hsum)
  refine ⟨?_, hsum1, by rw [hsum1]; norm_num⟩
  intro w hw
  rcases List.mem_map.mp hw with ⟨x, hx, rfl⟩
  exact div_nonneg (hnn x hx) (le_of_lt hsum)

/-- Witness for C7 (amended): the sample drawn from two equal raw draws
has weights summing to 1. -/
theorem optimizer_weights_on_simplex_witness :
    (PortfolioOptimization.mean_variance_optimization ⟨[1, 2], [[1, 0], [0, 1]]⟩
        (1 / 100) [2, 2]).weights.sum = 1
  ∧ |(PortfolioOptimization.mean_variance_optimization ⟨[1, 2], [[1, 0], [0, 1]]⟩
        (1 / 100) [2, 2]).weights.sum - 1| ≤ 1 / 1000000000 := by
  have h := optimizer_weights_on_simplex ⟨[1, 2], [[1, 0], [0, 1]]⟩ (1 / 100)
    [[2, 2]]
    (by intro d hd; rw [List.mem_singleton] at hd; subst hd; norm_num)
    (PortfolioOptimization.mean_variance_optimization ⟨[1, 2], [[1, 0], [0, 1]]⟩
      (1 / 100) [2, 2])
    (by simp [PortfolioOptimization.optimize_portfolio])
  exact ⟨h.2.1, h.2.2⟩

/-- C7 counterexample: `np.random.random` can return the all-zeros
vector (each component 0.0 is a possible draw), and then the recorded
weights do not sum to 1 within 1e-9: normalization divides by zero (NumPy
yields NaN; in this exact-arithmetic model the weight is 0), so the claim
as stated — over every sample the optimizer can produce — fails. -/
theorem optimizer_weights_sum_counterexample :
    ∃ s ∈ PortfolioOptimization.optimize_portfolio ⟨[1], [[1]]⟩ (1 / 100) [[0]],
      ¬ (|s.weights.sum - 1| ≤ 1 / 1000000000) := by
  refine ⟨PortfolioOptimization.mean_variance_optimization ⟨[1], [[1]]⟩ (1 / 100) [0],
    by simp [PortfolioOptimization.optimize_portfolio], ?_⟩
  rw [mean_variance_weights]
  norm_num

lemma dotR_zero_right (xs ys : List ℝ) (h : ∀ y ∈ ys, y = 0) :
    dotR xs ys = 0 := by
  apply List.sum_eq_zero
  intro z hz
  rcases List.mem_map.mp hz with ⟨q, hq, rfl⟩
  rw [h q.2 (List.of_mem_zip hq).2, mul_zero]

lemma dotR_zero_left (xs ys : List ℝ) (h : ∀ x ∈ xs, x = 0) :
    dotR xs ys = 0 := by
  apply List.sum_eq_zero
  intro z hz
  rcases List.mem_map.mp hz with ⟨q, hq, rfl⟩
  rw [h q.1 (List.of_mem_zip hq).1, zero_mul]

/-- C6 (amended). The Sharpe ratio is computed by the unguarded division
`(portfolio_return - risk_free_rate) / portfolio_volatility`: whenever the
volatility is 0 — e.g. for any all-zero covariance matrix — the divisor is
zero and the result is not a finite number (`none` here, NaN/∞ in NumPy);
there is no sentinel mapping it to 0. When the volatility is non-zero the
quotient is returned. -/
theorem sharpe_ratio_undefined_at_zero_volatility
    (returns : List ℝ) (cov : List (List ℝ)) (rf : ℝ) (draws : List ℝ)
    (hcov : ∀ row ∈ cov, ∀ x ∈ row, x = 0) :
    ((PortfolioOptimization.mk returns cov).mean_variance_optimization rf
        draws).portfolio_volatility = 0
  ∧ ((PortfolioOptimization.mk returns cov).mean_variance_optimization rf
        draws).sharpe_ratio = none
  ∧ ∀ (p : PortfolioOptimization) (rf' : ℝ) (d : List ℝ),
      (p.mean_variance_optimization rf' d).portfolio_volatility ≠ 0 →
      (p.mean_variance_optimization rf' d).sharpe_ratio
        = some (((p.mean_variance_optimization rf' d).portfolio_return - rf')
            / (p.mean_variance_optimization rf' d).portfolio_volatility) := by
  have hvol : ((PortfolioOptimization.mk returns cov).mean_variance_optimization
      rf draws).portfolio_volatility = 0 := by
    rw [mean_variance_volatility]
    have hmv : ∀ z ∈ matVec cov (draws.map (fun x => x / draws.sum)), z = 0 := by
      intro z hz
      rcases List.mem_map.mp hz with ⟨row, hrow, rfl⟩
      exact dotR_zero_left _ _ (hcov row hrow)
    rw [dotR_zero_right _ _ hmv, Real.sqrt_zero]
  refine ⟨hvol, ?_, ?_⟩
  · rw [mean_variance_sharpe, if_pos hvol]
  · intro p rf' d hv
    rw [mean_variance_sharpe, if_neg hv]

/-- Witness for C6 (amended): a single asset with zero variance yields
volatility 0 and an undefined (non-finite) Sharpe ratio. -/
theorem sharpe_ratio_undefined_at_zero_volatility_witness :
    ((PortfolioOptimization.mk [1] [[0]]).mean_variance_optimization (1 / 100)
        [1]).portfolio_volatility = 0
  ∧ ((PortfolioOptimization.mk [1] [[0]]).mean_variance_optimization (1 / 100)
        [1]).sharpe_ratio = none :=
  ⟨(sharpe_ratio_undefined_at_zero_volatility [1] [[0]] (1 / 100) [1]
      (by intro row hrow; rw [List.mem_singleton] at hrow; subst hrow; simp)).1,
   (sharpe_ratio_undefined_at_zero_volatility [1] [[0]] (1 / 100) [1]
      (by intro row hrow; rw [List.mem_singleton] at hrow; subst hrow; simp)).2.1⟩

/-- C6 counterexample: With returns `[1]`, covariance `[[0]]`,
risk-free rate 0 and draw `[1]`, the sample's volatility is 0, yet its
Sharpe ratio is not the claimed sentinel 0: the unguarded division leaves
it undefined (non-finite). -/
theorem sharpe_ratio_zero_sentinel_counterexample :
    ((PortfolioOptimization.mk [1] [[0]]).mean_variance_optimization 0
        [1]).portfolio_volatility = 0
  ∧ ((PortfolioOptimization.mk [1] [[0]]).mean_variance_optimization 0
        [1]).sharpe_ratio ≠ some 0 := by
  have hvol : ((PortfolioOptimization.mk [1] [[0]]).mean_variance_optimization 0
      [1]).portfolio_volatility = 0 := by
    rw [mean_variance_volatility]
    simp [dotR, matVec]
  refine ⟨hvol, ?_⟩
  rw [mean_variance_sharpe, if_pos hvol]
  simp

lemma npGt_finite (x y : ℝ) :
    npGt (NpFloat.finite x) (NpFloat.finite y) = decide (y < x) := rfl

lemma npGe_finite (x y : ℝ) :
    npGe (NpFloat.finite x) (NpFloat.finite y) = decide (y ≤ x) := rfl

lemma mean_variance_return (p : PortfolioOptimization) (rf : ℝ)
    (draws : List ℝ) :
    (p.mean_variance_optimization rf draws).portfolio_return
      = dotR (draws.map (fun x => x / draws.sum)) p.returns := rfl

/-- On all-finite data, `np.argmax` over the recorded floats coincides
with the first-maximum index of the carried reals. -/
lemma npArgmaxF_eq_npArgmax : ∀ (l : List NpFloat),
    (∀ a ∈ l, ∃ x : ℝ, a = NpFloat.finite x) →
    npArgmaxF l = npArgmax (l.map NpFloat.val)
  | [], _ => rfl
  | [_], _ => rfl
  | a :: b :: rest, hfin => by
    obtain ⟨xa, hxa⟩ := hfin a (List.mem_cons_self _ _)
    subst hxa
    have ihfin : ∀ y ∈ b :: rest, ∃ x : ℝ, y = NpFloat.finite x :=
      fun y hy => hfin y (List.mem_cons_of_mem _ hy)
    have ih := npArgmaxF_eq_npArgmax (b :: rest) ihfin
    have hjlen : npArgmaxF (b :: rest) < (b :: rest).length := by
      rw [ih]
      have h := npArgmax_lt_length ((b :: rest).map NpFloat.val) (by simp)
      rwa [List.length_map] at h
    obtain ⟨xv, hxv⟩ := ihfin _ (getD_mem hjlen NpFloat.nan)
    have hval : (List.map NpFloat.val (b :: rest)).getD
        (npArgmax (List.map NpFloat.val (b :: rest))) 0 = xv := by
      rw [← ih, getD_map_comm NpFloat.val NpFloat.nan 0 _ _ hjlen, hxv]
      rfl
    simp only [List.map_cons] at ih hval ⊢
    rw [npArgmaxF, npArgmax, hxv, ih, hval]
    simp only [NpFloat.val]
    by_cases hc : xa < xv
    · rw [if_pos ⟨by simp, Or.inr (by rw [npGt_finite]; exact decide_eq_true hc)⟩,
        if_pos hc]
    · have hcond : ¬ (NpFloat.finite xa ≠ NpFloat.nan
          ∧ (NpFloat.finite xv = NpFloat.nan
              ∨ npGt (NpFloat.finite xv) (NpFloat.finite xa) = true)) := by
        rintro ⟨-, h | h⟩
        · simp at h
        · rw [npGt_finite] at h
          exact hc (of_decide_eq_true h)
      rw [if_neg hcond, if_neg hc]

lemma sharpeFloat_finite_sample (p : PortfolioOptimization) (rf : ℝ)
    (draws : List ℝ) (x : ℝ)
    (h : sharpeFloatOf p.returns p.cov_matrix rf draws = NpFloat.finite x) :
    (p.mean_variance_optimization rf draws).sharpe_ratio = some x := by
  unfold sharpeFloatOf at h
  by_cases h1 : dotR (draws.map (fun x => x / draws.sum))
      (matVec p.cov_matrix (draws.map (fun x => x / draws.sum))) < 0
  · rw [if_pos h1] at h
    exact absurd h (by simp)
  · rw [if_neg h1] at h
    by_cases h2 : Real.sqrt (dotR (draws.map (fun x => x / draws.sum))
        (matVec p.cov_matrix (draws.map (fun x => x / draws.sum)))) = 0
    · rw [if_pos h2] at h
      split_ifs at h
    · rw [if_neg h2] at h
      simp only [NpFloat.finite.injEq] at h
      rw [mean_variance_sharpe, if_neg (by rw [mean_variance_volatility]; exact h2),
        mean_variance_return, mean_variance_volatility]
      rw [h]

/-- C8 (amended): on every run whose recorded Sharpe floats `results[2]`
are all finite, `get_optimal_weights` returns the triple at the
`np.argmax` index: that sample's recorded Sharpe is ≥ every recorded
Sharpe of the run (IEEE comparison), every strictly earlier sample has a
strictly smaller one (first-encountered tie-breaking), and the recorded
float agrees with the sample's stored Sharpe ratio; everything is a pure
function of the draw list, hence deterministic for a fixed random source.
On runs containing a NaN Sharpe the original claim fails: see the
counterexample. -/
theorem get_optimal_weights_max_sharpe (p : PortfolioOptimization) (rf : ℝ)
    (drawss : List (List ℝ)) (sharpes : List NpFloat)
    (samples : List PortfolioSample)
    (hsh : sharpes = p.recorded_sharpes rf drawss)
    (hsm : samples = p.optimize_portfolio rf drawss)
    (hne : sharpes ≠ [])
    (hfin : ∀ a ∈ sharpes, ∃ x : ℝ, a = NpFloat.finite x)
    (idx : ℕ) (hidx : idx = npArgmaxF sharpes) :
    PortfolioOptimization.get_optimal_weights sharpes samples
      = ((samples.getD idx default).weights,
         (samples.getD idx default).portfolio_return,
         (samples.getD idx default).portfolio_volatility)
  ∧ idx < sharpes.length
  ∧ (∀ a ∈ sharpes, npGe (sharpes.getD idx NpFloat.nan) a = true)
  ∧ (∀ j, j < idx →
      npGt (sharpes.getD idx NpFloat.nan) (sharpes.getD j NpFloat.nan) = true)
  ∧ (∀ x : ℝ, sharpes.getD idx NpFloat.nan = NpFloat.finite x →
      (samples.getD idx default).sharpe_ratio = some x) := by
  subst hidx
  have heq := npArgmaxF_eq_npArgmax sharpes hfin
  have hmne : sharpes.map NpFloat.val ≠ [] := by
    intro h
    exact hne (List.map_eq_nil_iff.mp h)
  have hlen : (sharpes.map NpFloat.val).length = sharpes.length :=
    List.length_map _ _
  have hlt : npArgmaxF sharpes < sharpes.length := by
    rw [heq]
    have h := npArgmax_lt_length _ hmne
    rwa [hlen] at h
  obtain ⟨xs, hxs⟩ := hfin _ (getD_mem hlt NpFloat.nan)
  have hselval : (sharpes.map NpFloat.val).getD
      (npArgmax (sharpes.map NpFloat.val)) 0 = xs := by
    rw [← heq, getD_map_comm NpFloat.val NpFloat.nan 0 _ _ hlt, hxs]
    rfl
  refine ⟨rfl, hlt, ?_, ?_, ?_⟩
  · intro a ha
    obtain ⟨xa, hxa⟩ := hfin a ha
    subst hxa
    rw [hxs, npGe_finite]
    apply decide_eq_true
    obtain ⟨i, hi, hgetix⟩ := List.mem_iff_getElem.mp ha
    have h1 : (sharpes.map NpFloat.val).getD i 0
        ≤ (sharpes.map NpFloat.val).getD
            (npArgmax (sharpes.map NpFloat.val)) 0 :=
      npArgmax_is_max _ i (by rwa [hlen])
    rw [hselval, getD_map_comm NpFloat.val NpFloat.nan 0 _ _ hi] at h1
    rw [List.getD_eq_getElem sharpes NpFloat.nan hi, hgetix] at h1
    exact h1
  · intro j hj
    have hjlen : j < sharpes.length := lt_trans hj hlt
    obtain ⟨xj, hxj⟩ := hfin _ (getD_mem hjlen NpFloat.nan)
    rw [hxs, hxj, npGt_finite]
    apply decide_eq_true
    have h1 : (sharpes.map NpFloat.val).getD j 0
        < (sharpes.map NpFloat.val).getD
            (npArgmax (sharpes.map NpFloat.val)) 0 :=
      npArgmax_first _ j (by rwa [← heq])
    rw [hselval, getD_map_comm NpFloat.val NpFloat.nan 0 _ _ hjlen, hxj] at h1
    exact h1
  · intro x hx
    subst hsh
    subst hsm
    have hdlen : npArgmaxF (PortfolioOptimization.recorded_sharpes p rf drawss)
        < drawss.length := by
      have h := hlt
      unfold PortfolioOptimization.recorded_sharpes at h
      rwa [List.length_map] at h
    have hgetsh : (PortfolioOptimization.recorded_sharpes p rf drawss).getD
        (npArgmaxF (PortfolioOptimization.recorded_sharpes p rf drawss))
          NpFloat.nan
        = sharpeFloatOf p.returns p.cov_matrix rf (drawss.getD
            (npArgmaxF (PortfolioOptimization.recorded_sharpes p rf drawss)) []) :=
      getD_map_comm (fun draws => sharpeFloatOf p.returns p.cov_matrix rf draws)
        [] NpFloat.nan drawss _ hdlen
    have hsmp : (PortfolioOptimization.optimize_portfolio p rf drawss).getD
        (npArgmaxF (PortfolioOptimization.recorded_sharpes p rf drawss)) default
        = p.mean_variance_optimization rf (drawss.getD
            (npArgmaxF (PortfolioOptimization.recorded_sharpes p rf drawss)) []) :=
      getD_map_comm (p.mean_variance_optimization rf) [] default drawss _ hdlen
    rw [hsmp]
    apply sharpeFloat_finite_sample p rf _ x
    rw [← hgetsh]
    exact hx

lemma sharpeFloat_wit : sharpeFloatOf [1] [[1]] 0 [1 / 2] = NpFloat.finite 1 := by
  have hw : (([1 / 2] : List ℝ).map (fun x => x / ([1 / 2] : List ℝ).sum))
      = [1] := by
    norm_num
  unfold sharpeFloatOf
  rw [hw]
  have hq : dotR [1] (matVec [[1]] [1]) = 1 := by
    simp [dotR, matVec]
  have hr : dotR ([1] : List ℝ) [1] = 1 := by
    simp [dotR]
  rw [hq, hr, Real.sqrt_one]
  norm_num

/-- Witness for C8 (amended): a one-sample all-finite run; the selected
triple is the one at the argmax index, which is in range. -/
theorem get_optimal_weights_max_sharpe_witness :
    PortfolioOptimization.get_optimal_weights
        (PortfolioOptimization.recorded_sharpes ⟨[1], [[1]]⟩ 0 [[1 / 2]])
        (PortfolioOptimization.optimize_portfolio ⟨[1], [[1]]⟩ 0 [[1 / 2]])
      = (((PortfolioOptimization.optimize_portfolio ⟨[1], [[1]]⟩ 0
            [[1 / 2]]).getD (npArgmaxF (PortfolioOptimization.recorded_sharpes
              ⟨[1], [[1]]⟩ 0 [[1 / 2]])) default).weights,
         ((PortfolioOptimization.optimize_portfolio ⟨[1], [[1]]⟩ 0
            [[1 / 2]]).getD (npArgmaxF (PortfolioOptimization.recorded_sharpes
              ⟨[1], [[1]]⟩ 0 [[1 / 2]])) default).portfolio_return,
         ((PortfolioOptimization.optimize_portfolio ⟨[1], [[1]]⟩ 0
            [[1 / 2]]).getD (npArgmaxF (PortfolioOptimization.recorded_sharpes
              ⟨[1], [[1]]⟩ 0 [[1 / 2]])) default).portfolio_volatility)
  ∧ npArgmaxF (PortfolioOptimization.recorded_sharpes ⟨[1], [[1]]⟩ 0 [[1 / 2]])
      < (PortfolioOptimization.recorded_sharpes ⟨[1], [[1]]⟩ 0 [[1 / 2]]).length := by
  have hsh : PortfolioOptimization.recorded_sharpes ⟨[1], [[1]]⟩ 0 [[1 / 2]]
      = [NpFloat.finite 1] := by
    show ([[1 / 2]] : List (List ℝ)).map
        (fun draws => sharpeFloatOf [1] [[1]] 0 draws) = [NpFloat.finite 1]
    simp only [List.map_cons, List.map_nil]
    rw [sharpeFloat_wit]
  have h := get_optimal_weights_max_sharpe ⟨[1], [[1]]⟩ 0 [[1 / 2]]
    (PortfolioOptimization.recorded_sharpes ⟨[1], [[1]]⟩ 0 [[1 / 2]])
    (PortfolioOptimization.optimize_portfolio ⟨[1], [[1]]⟩ 0 [[1 / 2]])
    rfl rfl (by rw [hsh]; simp)
    (by
      rw [hsh]
      intro a ha
      rw [List.mem_singleton] at ha
      exact ⟨1, ha⟩)
    (npArgmaxF (PortfolioOptimization.recorded_sharpes ⟨[1], [[1]]⟩ 0 [[1 / 2]]))
    rfl
  exact ⟨h.1, h.2.1⟩

lemma sharpeFloat_cex : sharpeFloatOf [0] [[0]] 0 [1 / 2] = NpFloat.nan := by
  have hw : (([1 / 2] : List ℝ).map (fun x => x / ([1 / 2] : List ℝ).sum))
      = [1] := by
    norm_num
  unfold sharpeFloatOf
  rw [hw]
  have hq : dotR [1] (matVec [[0]] [1]) = 0 := by
    simp [dotR, matVec]
  have hr : dotR ([1] : List ℝ) [0] = 0 := by
    simp [dotR]
  rw [hq, hr]
  simp

/-- C8 counterexample: the run with returns `[0]`, covariance `[[0]]`,
risk-free rate 0 and draws `[0.5], [0.5]` (legitimate `np.random.random`
outputs) records the Sharpe float NaN for both samples (volatility 0 and
expectedReturn = riskFreeRate, so `0.0/0.0`); `np.argmax` selects the
first sample, but its Sharpe is not ≥ the other sampled Sharpe — the IEEE
comparison with NaN is false — so the claim's property fails on this
non-empty run. -/
theorem get_optimal_weights_nan_counterexample :
    PortfolioOptimization.recorded_sharpes ⟨[0], [[0]]⟩ 0 [[1 / 2], [1 / 2]]
      = [NpFloat.nan, NpFloat.nan]
  ∧ npArgmaxF (PortfolioOptimization.recorded_sharpes ⟨[0], [[0]]⟩ 0
      [[1 / 2], [1 / 2]]) = 0
  ∧ npGe ((PortfolioOptimization.recorded_sharpes ⟨[0], [[0]]⟩ 0
        [[1 / 2], [1 / 2]]).getD 0 NpFloat.nan)
      ((PortfolioOptimization.recorded_sharpes ⟨[0], [[0]]⟩ 0
        [[1 / 2], [1 / 2]]).getD 1 NpFloat.nan) = false := by
  have hsh : PortfolioOptimization.recorded_sharpes ⟨[0], [[0]]⟩ 0
      [[1 / 2], [1 / 2]] = [NpFloat.nan, NpFloat.nan] := by
    show ([[1 / 2], [1 / 2]] : List (List ℝ)).map
        (fun draws => sharpeFloatOf [0] [[0]] 0 draws)
      = [NpFloat.nan, NpFloat.nan]
    simp only [List.map_cons, List.map_nil]
    rw [sharpeFloat_cex]
  refine ⟨hsh, ?_, ?_⟩
  · rw [hsh, npArgmaxF, if_neg]
    rintro ⟨h, -⟩
    exact h rfl
  · rw [hsh]
    rfl

/-! Section: Option pricing — `src/models/option_pricing.py`

`scipy.stats.norm.cdf` means the standard normal CDF, embedded as the
integral of the standard normal density. -/

/-- The standard normal density. -/
noncomputable def normPdf (t : ℝ) : ℝ :=
  Real.exp (-t ^ 2 / 2) / Real.sqrt (2 * Real.pi)

/-- The standard normal CDF (`scipy.stats.norm.cdf`). -/
noncomputable def normCdf (x : ℝ) : ℝ :=
  ∫ t in Iic x, normPdf t

lemma normPdf_eq (t : ℝ) :
    normPdf t = Real.exp (-(1 / 2 : ℝ) * t ^ 2) * (Real.sqrt (2 * Real.pi))⁻¹ := by
  unfold normPdf
  rw [div_eq_mul_inv]
  congr 2
  ring

lemma normPdf_nonneg (t : ℝ) : 0 ≤ normPdf t := by
  unfold normPdf
  positivity

lemma normPdf_integrable : Integrable normPdf := by
  have h : Integrable (fun t : ℝ => Real.exp (-(1 / 2 : ℝ) * t ^ 2)) :=
    integrable_exp_neg_mul_sq (by norm_num)
  have heq : normPdf
      = fun t : ℝ => Real.exp (-(1 / 2 : ℝ) * t ^ 2) * (Real.sqrt (2 * Real.pi))⁻¹ :=
    funext normPdf_eq
  rw [heq]
  exact h.mul_const _

lemma normPdf_total : ∫ t : ℝ, normPdf t = 1 := by
  have heq : normPdf
      = fun t : ℝ => Real.exp (-(1 / 2 : ℝ) * t ^ 2) * (Real.sqrt (2 * Real.pi))⁻¹ :=
    funext normPdf_eq
  rw [heq, integral_mul_right, integral_gaussian]
  have h2 : Real.pi / (1 / 2) = 2 * Real.pi := by ring
  rw [h2]
  exact mul_inv_cancel₀ (ne_of_gt (Real.sqrt_pos.mpr (by positivity)))

lemma normPdf_even (t : ℝ) : normPdf (-t) = normPdf t := by
  unfold normPdf
  rw [neg_sq]

lemma normCdf_neg_eq_Ioi (x : ℝ) : normCdf (-x) = ∫ t in Ioi x, normPdf t := by
  unfold normCdf
  have h := integral_comp_neg_Iic (-x) normPdf
  rw [neg_neg] at h
  rw [← h]
  simp only [normPdf_even]

/-- Symmetry of the standard normal CDF: `Φ(x) + Φ(−x) = 1`. -/
lemma normCdf_add_neg (x : ℝ) : normCdf x + normCdf (-x) = 1 := by
  rw [normCdf_neg_eq_Ioi]
  unfold normCdf
  rw [intervalIntegral.integral_Iic_add_Ioi normPdf_integrable.integrableOn
    normPdf_integrable.integrableOn]
  exact normPdf_total

structure OptionPricing where
  spot_price : ℝ
  strike_price : ℝ
  time_to_maturity : ℝ
  risk_free_rate : ℝ
  volatility : ℝ

/-- Quantity `d1` as computed by both Black-Scholes methods. -/
noncomputable def OptionPricing.d1 (o : OptionPricing) : ℝ :=
  (Real.log (o.spot_price / o.strike_price)
      + (o.risk_free_rate + 0.5 * o.volatility ^ 2) * o.time_to_maturity)
    / (o.volatility * Real.sqrt o.time_to_maturity)

/-- Quantity `d2 = d1 - volatility * sqrt(T)`. -/
noncomputable def OptionPricing.d2 (o : OptionPricing) : ℝ :=
  o.d1 - o.volatility * Real.sqrt o.time_to_maturity

/-- The exceptions Python can raise while evaluating `d1`:
ZeroDivisionError on `spot/strike` when `strike == 0`; ValueError from
`math.log` on a non-positive ratio; ValueError from `math.sqrt` on a
negative time; ZeroDivisionError when the divisor `volatility*sqrt(T)`
is zero. No other operation in either method can fail. -/
def OptionPricing.bs_domain_error (o : OptionPricing) : Prop :=
  o.strike_price = 0 ∨ o.spot_price / o.strike_price ≤ 0
    ∨ o.time_to_maturity < 0
    ∨ o.volatility * Real.sqrt o.time_to_maturity = 0

/-- The value `black_scholes_call` computes when no exception occurs. -/
noncomputable def OptionPricing.bs_call_val (o : OptionPricing) : ℝ :=
  o.spot_price * normCdf o.d1
    - o.strike_price * Real.exp (-o.risk_free_rate * o.time_to_maturity)
        * normCdf o.d2

/-- The value `black_scholes_put` computes when no exception occurs. -/
noncomputable def OptionPricing.bs_put_val (o : OptionPricing) : ℝ :=
  o.strike_price * Real.exp (-o.risk_free_rate * o.time_to_maturity)
      * normCdf (-o.d2)
    - o.spot_price * normCdf (-o.d1)

open Classical in
/-- Method `black_scholes_call()`: `none` models a raised exception. -/
noncomputable def OptionPricing.black_scholes_call (o : OptionPricing) :
    Option ℝ :=
  if o.bs_domain_error then none else some o.bs_call_val

open Classical in
/-- Method `black_scholes_put()`: `none` models a raised exception. -/
noncomputable def OptionPricing.black_scholes_put (o : OptionPricing) :
    Option ℝ :=
  if o.bs_domain_error then none else some o.bs_put_val

lemma bs_no_domain_error (o : OptionPricing) (hs : 0 < o.spot_price)
    (hk : 0 < o.strike_price) (ht : 0 ≤ o.time_to_maturity)
    (hd : o.volatility * Real.sqrt o.time_to_maturity ≠ 0) :
    ¬ o.bs_domain_error := by
  unfold OptionPricing.bs_domain_error
  push_neg
  exact ⟨ne_of_gt hk, div_pos hs hk, ht, hd⟩

/-- C2. Put-call parity: for positive spot, strike, time and
volatility, both Black-Scholes methods succeed and
`call − put = spot − strike·e^(−r·T)` exactly (hence within any
tolerance). -/
theorem put_call_parity (o : OptionPricing) (hs : 0 < o.spot_price)
    (hk : 0 < o.strike_price) (ht : 0 < o.time_to_maturity)
    (hv : 0 < o.volatility) :
    o.black_scholes_call = some o.bs_call_val
  ∧ o.black_scholes_put = some o.bs_put_val
  ∧ o.bs_call_val - o.bs_put_val
      = o.spot_price
        - o.strike_price * Real.exp (-o.risk_free_rate * o.time_to_maturity) := by
  have hd : o.volatility * Real.sqrt o.time_to_maturity ≠ 0 :=
    mul_ne_zero (ne_of_gt hv) (ne_of_gt (Real.sqrt_pos.mpr ht))
  have hdom := bs_no_domain_error o hs hk (le_of_lt ht) hd
  refine ⟨?_, ?_, ?_⟩
  · unfold OptionPricing.black_scholes_call
    rw [if_neg hdom]
  · unfold OptionPricing.black_scholes_put
    rw [if_neg hdom]
  · have h1 := normCdf_add_neg o.d1
    have h2 := normCdf_add_neg o.d2
    unfold OptionPricing.bs_call_val OptionPricing.bs_put_val
    linear_combination o.spot_price * h1
      - o.strike_price * Real.exp (-o.risk_free_rate * o.time_to_maturity) * h2

/-- Witness for C2 at spot = strike = 100, T = 1, r = 0, σ = 1. -/
theorem put_call_parity_witness :
    OptionPricing.black_scholes_call ⟨100, 100, 1, 0, 1⟩
        = some (OptionPricing.bs_call_val ⟨100, 100, 1, 0, 1⟩)
  ∧ OptionPricing.black_scholes_put ⟨100, 100, 1, 0, 1⟩
        = some (OptionPricing.bs_put_val ⟨100, 100, 1, 0, 1⟩)
  ∧ OptionPricing.bs_call_val ⟨100, 100, 1, 0, 1⟩
        - OptionPricing.bs_put_val ⟨100, 100, 1, 0, 1⟩
      = 100 - 100 * Real.exp (-0 * 1) :=
  put_call_parity ⟨100, 100, 1, 0, 1⟩ (by norm_num) (by norm_num) (by norm_num)
    (by norm_num)

/-- C4 (amended). Neither Black-Scholes method validates its inputs:
for positive spot and strike, both fail (a raised ZeroDivisionError, not
an `InvalidParameter`) when `σ = 0` or `T = 0`, and fail (ValueError from
`math.sqrt`) when `T < 0` — but for `σ < 0` with `T > 0` both return a
value, so they do not fail on every `σ ≤ 0`. They never return NaN or ∞:
the zero-divisor case raises instead of producing a float. -/
theorem black_scholes_guard_behavior (o : OptionPricing)
    (hs : 0 < o.spot_price) (hk : 0 < o.strike_price) :
    ((o.volatility = 0 ∨ o.time_to_maturity = 0) →
        o.black_scholes_call = none ∧ o.black_scholes_put = none)
  ∧ (o.time_to_maturity < 0 →
        o.black_scholes_call = none ∧ o.black_scholes_put = none)
  ∧ (o.volatility < 0 → 0 < o.time_to_maturity →
        o.black_scholes_call = some o.bs_call_val
          ∧ o.black_scholes_put = some o.bs_put_val) := by
  refine ⟨?_, ?_, ?_⟩
  · intro h
    have hdom : o.bs_domain_error := by
      unfold OptionPricing.bs_domain_error
      rcases h with h | h
      · exact Or.inr (Or.inr (Or.inr (by rw [h, zero_mul])))
      · exact Or.inr (Or.inr (Or.inr (by rw [h, Real.sqrt_zero, mul_zero])))
    exact ⟨by unfold OptionPricing.black_scholes_call; rw [if_pos hdom],
      by unfold OptionPricing.black_scholes_put; rw [if_pos hdom]⟩
  · intro h
    have hdom : o.bs_domain_error := Or.inr (Or.inr (Or.inl h))
    exact ⟨by unfold OptionPricing.black_scholes_call; rw [if_pos hdom],
      by unfold OptionPricing.black_scholes_put; rw [if_pos hdom]⟩
  · intro hv ht
    have hd : o.volatility * Real.sqrt o.time_to_maturity ≠ 0 :=
      mul_ne_zero (ne_of_lt hv) (ne_of_gt (Real.sqrt_pos.mpr ht))
    have hdom := bs_no_domain_error o hs hk (le_of_lt ht) hd
    exact ⟨by unfold OptionPricing.black_scholes_call; rw [if_neg hdom],
      by unfold OptionPricing.black_scholes_put; rw [if_neg hdom]⟩

/-- Witness for C4 (amended): at σ = 0 both methods fail. -/
theorem black_scholes_guard_behavior_witness :
    OptionPricing.black_scholes_call ⟨100, 100, 1, 0, 0⟩ = none
  ∧ OptionPricing.black_scholes_put ⟨100, 100, 1, 0, 0⟩ = none :=
  (black_scholes_guard_behavior ⟨100, 100, 1, 0, 0⟩ (by norm_num)
    (by norm_num)).1 (Or.inl rfl)

/-- C4 counterexample. At σ = −1 (so σ ≤ 0) with T = 1, spot = strike
= 100, `black_scholes_call()` does not fail at all: it returns a value,
refuting "fails with InvalidParameter whenever volatility ≤ 0 or T ≤ 0".
-/
theorem black_scholes_negative_vol_counterexample :
    (OptionPricing.volatility ⟨100, 100, 1, 0, -1⟩ ≤ 0)
  ∧ (OptionPricing.black_scholes_call ⟨100, 100, 1, 0, -1⟩).isSome
  ∧ (OptionPricing.black_scholes_put ⟨100, 100, 1, 0, -1⟩).isSome := by
  have hdom : ¬ OptionPricing.bs_domain_error ⟨100, 100, 1, 0, -1⟩ := by
    apply bs_no_domain_error _ (by norm_num) (by norm_num) (by norm_num)
    show (-1 : ℝ) * Real.sqrt 1 ≠ 0
    rw [Real.sqrt_one]
    norm_num
  refine ⟨by norm_num, ?_, ?_⟩
  · unfold OptionPricing.black_scholes_call
    rw [if_neg hdom]
    rfl
  · unfold OptionPricing.black_scholes_put
    rw [if_neg hdom]
    rfl

/-! Subsection: Binomial tree (`binomial_tree_option`) -/

/-- Quantity `dt = time_to_maturity / steps`. -/
noncomputable def OptionPricing.tree_dt (o : OptionPricing) (steps : ℕ) : ℝ :=
  o.time_to_maturity / steps

/-- Quantity `u = exp(volatility * sqrt(dt))`. -/
noncomputable def OptionPricing.tree_u (o : OptionPricing) (steps : ℕ) : ℝ :=
  Real.exp (o.volatility * Real.sqrt (o.tree_dt steps))

/-- Quantity `d = 1 / u`. -/
noncomputable def OptionPricing.tree_d (o : OptionPricing) (steps : ℕ) : ℝ :=
  1 / o.tree_u steps

/-- Quantity `p = (exp(r*dt) - d) / (u - d)`. -/
noncomputable def OptionPricing.tree_p (o : OptionPricing) (steps : ℕ) : ℝ :=
  (Real.exp (o.risk_free_rate * o.tree_dt steps) - o.tree_d steps)
    / (o.tree_u steps - o.tree_d steps)

/-- The terminal `option_values` list: payoffs of the `steps+1` terminal
asset prices `spot * u^j * d^(steps-j)`. -/
noncomputable def OptionPricing.terminal_values (o : OptionPricing)
    (steps : ℕ) (option_type : String) : List ℝ :=
  ((List.range (steps + 1)).map
      (fun j => o.spot_price * o.tree_u steps ^ j * o.tree_d steps ^ (steps - j))).map
    (fun price =>
      if option_type = "call" then max 0 (price - o.strike_price)
      else max 0 (o.strike_price - price))

/-- The backward-induction loop `for i in range(steps-1, -1, -1)`: at the
iteration for `i`, the list is rebuilt as
`[disc * (p*v[j+1] + (1-p)*v[j]) for j in range(i+1)]`. In the source the
indices `j` and `j+1` are always in range; `getD _ 0` supplies an
irrelevant default. -/
def backward_induction (disc p : ℝ) : ℕ → List ℝ → List ℝ
  | 0, v => v
  | k + 1, v => backward_induction disc p k
      ((List.range (k + 1)).map
        (fun j => disc * (p * v.getD (j + 1) 0 + (1 - p) * v.getD j 0)))

/-- The value `binomial_tree_option` computes when no exception occurs
(the returned `option_values[0]`). -/
noncomputable def OptionPricing.binomial_tree_val (o : OptionPricing)
    (steps : ℕ) (option_type : String) : ℝ :=
  (backward_induction (Real.exp (-o.risk_free_rate * o.tree_dt steps))
      (o.tree_p steps) steps (o.terminal_values steps option_type)).getD 0 0

open Classical in
/-- Method `binomial_tree_option(steps, option_type)`: `none` models a raised
exception — ZeroDivisionError from `dt = T/steps` when `steps == 0`, or
from the division by `u - d` when it is zero. These are the only failure
points: no no-arbitrage check on `p` exists. -/
noncomputable def OptionPricing.binomial_tree_option (o : OptionPricing)
    (steps : ℕ) (option_type : String) : Option ℝ :=
  if steps = 0 ∨ o.tree_u steps - o.tree_d steps = 0 then none
  else some (o.binomial_tree_val steps option_type)

lemma tree_u_sub_d_ne_zero (o : OptionPricing) (steps : ℕ)
    (hv : o.volatility ≠ 0) (ht : 0 < o.time_to_maturity) (hst : steps ≠ 0) :
    o.tree_u steps - o.tree_d steps ≠ 0 := by
  have hdt : 0 < o.tree_dt steps := by
    unfold OptionPricing.tree_dt
    have : (0 : ℝ) < steps := by
      exact_mod_cast Nat.pos_of_ne_zero hst
    positivity
  have hx : o.volatility * Real.sqrt (o.tree_dt steps) ≠ 0 :=
    mul_ne_zero hv (ne_of_gt (Real.sqrt_pos.mpr hdt))
  unfold OptionPricing.tree_d OptionPricing.tree_u
  rw [sub_ne_zero]
  intro heq
  apply hx
  have hpos : 0 < Real.exp (o.volatility * Real.sqrt (o.tree_dt steps)) :=
    Real.exp_pos _
  have hsq : Real.exp (o.volatility * Real.sqrt (o.tree_dt steps)) ^ 2 = 1 := by
    field_simp at heq
    rw [sq]
    linarith [heq]
  have h1 : Real.exp (o.volatility * Real.sqrt (o.tree_dt steps)) = 1 := by
    nlinarith [hpos, hsq]
  rwa [Real.exp_eq_one_iff] at h1

lemma binomial_tree_defined (o : OptionPricing) (steps : ℕ)
    (option_type : String) (hv : o.volatility ≠ 0)
    (ht : 0 < o.time_to_maturity) (hst : steps ≠ 0) :
    o.binomial_tree_option steps option_type
      = some (o.binomial_tree_val steps option_type) := by
  unfold OptionPricing.binomial_tree_option
  rw [if_neg]
  push_neg
  exact ⟨hst, tree_u_sub_d_ne_zero o steps hv ht hst⟩

/-- C5 (amended): `binomial_tree_option` performs no no-arbitrage
check: whenever its two Python-level divisions are defined — `steps ≥ 1`
(for `dt = T/steps`) and `u ≠ d`, guaranteed by `σ ≠ 0` and `T > 0` — it
returns a value, regardless of whether `p` lies in (0,1); it never raises
`InvalidParameter`. -/
theorem binomial_tree_no_arbitrage_unchecked (o : OptionPricing)
    (steps : ℕ) (option_type : String) (hv : o.volatility ≠ 0)
    (ht : 0 < o.time_to_maturity) (hst : steps ≠ 0) :
    o.binomial_tree_option steps option_type
      = some (o.binomial_tree_val steps option_type) :=
  binomial_tree_defined o steps option_type hv ht hst

/-- Witness for C5 (amended): a concrete one-step tree returns a value. -/
theorem binomial_tree_no_arbitrage_unchecked_witness :
    OptionPricing.binomial_tree_option ⟨1, 1, 1, -1, 1⟩ 1 "call"
      = some (OptionPricing.binomial_tree_val ⟨1, 1, 1, -1, 1⟩ 1 "call") :=
  binomial_tree_no_arbitrage_unchecked ⟨1, 1, 1, -1, 1⟩ 1 "call"
    (by norm_num) (by norm_num) (by norm_num)

lemma tree_p_zero_at_cex :
    OptionPricing.tree_p ⟨1, 1, 1, -1, 1⟩ 1 = 0 := by
  unfold OptionPricing.tree_p OptionPricing.tree_d OptionPricing.tree_u
    OptionPricing.tree_dt
  norm_num
  left
  rw [Real.exp_neg]
  exact sub_self _

/-- C5 counterexample. For spot = strike = 1, T = 1, r = −1, σ = 1 and
`steps = 1`, the risk-neutral probability is `p = 0` — not strictly inside
(0,1) — yet `binomial_tree_option(1, "call")` does not fail: it returns a
value. -/
theorem binomial_tree_p_zero_counterexample :
    ¬ (0 < OptionPricing.tree_p ⟨1, 1, 1, -1, 1⟩ 1
        ∧ OptionPricing.tree_p ⟨1, 1, 1, -1, 1⟩ 1 < 1)
  ∧ (OptionPricing.binomial_tree_option ⟨1, 1, 1, -1, 1⟩ 1 "call").isSome := by
  constructor
  · rw [tree_p_zero_at_cex]
    intro h
    exact lt_irrefl 0 h.1
  · rw [binomial_tree_defined ⟨1, 1, 1, -1, 1⟩ 1 "call" (by norm_num)
      (by norm_num) (by norm_num)]
    rfl

/-! Subsection: C3: no uniform 1e-2 tolerance between the 500-step tree and
Black-Scholes.

At spot = 1, strike = e^(−√500), T = 1, σ = 1, r = −√500, the 500-step
CRR lattice has `e^(r·dt) = d`, so `p = 0` and the backward induction
propagates the bottom-path payoff `max(0, spot·d^500 − strike) = 0`:
the tree prices the call at exactly 0. Black-Scholes gives
`2Φ(1/2) − 1 > 1/100` for the same inputs. -/

lemma normCdf_sub (a b : ℝ) (hab : a ≤ b) :
    normCdf b - normCdf a = ∫ t in Ioc a b, normPdf t := by
  unfold normCdf
  rw [intervalIntegral.integral_Iic_sub_Iic normPdf_integrable.integrableOn
    normPdf_integrable.integrableOn]
  exact intervalIntegral.integral_of_le hab

lemma sqrt_two_pi_le_three : Real.sqrt (2 * Real.pi) ≤ 3 := by
  have h9 : Real.sqrt 9 = 3 := by
    rw [show (9 : ℝ) = 3 ^ 2 by norm_num]
    exact Real.sqrt_sq (by norm_num)
  calc Real.sqrt (2 * Real.pi) ≤ Real.sqrt 9 :=
        Real.sqrt_le_sqrt (by nlinarith [Real.pi_le_four])
    _ = 3 := h9

lemma normPdf_lower_on_Ioc :
    ∀ t ∈ Ioc (-(1 / 2) : ℝ) (1 / 2), (7 / 8 : ℝ) / 3 ≤ normPdf t := by
  intro t ht
  have ht2 : t ^ 2 ≤ (1 / 4 : ℝ) := by
    rcases ht with ⟨h1, h2⟩
    nlinarith
  have hexp : (7 / 8 : ℝ) ≤ Real.exp (-t ^ 2 / 2) := by
    have h1 : (7 / 8 : ℝ) ≤ Real.exp (-(1 / 8 : ℝ)) := by
      have := Real.add_one_le_exp (-(1 / 8 : ℝ))
      linarith
    have h2 : Real.exp (-(1 / 8 : ℝ)) ≤ Real.exp (-t ^ 2 / 2) :=
      Real.exp_le_exp.mpr (by linarith)
    linarith
  have hspos : 0 < Real.sqrt (2 * Real.pi) :=
    Real.sqrt_pos.mpr (by positivity)
  unfold normPdf
  exact div_le_div₀ (by positivity) hexp hspos sqrt_two_pi_le_three

/-- A crude but sufficient bound: `Φ(1/2) − Φ(−1/2) = 2Φ(1/2) − 1`
exceeds 1/100. -/
lemma normCdf_half_gap : (1 / 100 : ℝ) < 2 * normCdf (1 / 2) - 1 := by
  have hsym := normCdf_add_neg (1 / 2 : ℝ)
  have hsub := normCdf_sub (-(1 / 2) : ℝ) (1 / 2) (by norm_num)
  have hkey : 2 * normCdf (1 / 2 : ℝ) - 1
      = ∫ t in Ioc (-(1 / 2) : ℝ) (1 / 2), normPdf t := by
    rw [← hsub]
    linarith
  have hmono : (∫ _t in Ioc (-(1 / 2) : ℝ) (1 / 2), (7 / 8 : ℝ) / 3)
      ≤ ∫ t in Ioc (-(1 / 2) : ℝ) (1 / 2), normPdf t := by
    apply setIntegral_mono_on
    · exact integrableOn_const.mpr (Or.inr measure_Ioc_lt_top)
    · exact normPdf_integrable.integrableOn
    · exact measurableSet_Ioc
    · exact normPdf_lower_on_Ioc
  have hconst : (∫ _t in Ioc (-(1 / 2) : ℝ) (1 / 2), (7 / 8 : ℝ) / 3)
      = 7 / 24 := by
    rw [setIntegral_const, Real.volume_Ioc]
    rw [show (1 / 2 : ℝ) - (-(1 / 2)) = 1 by norm_num]
    rw [ENNReal.toReal_ofReal (by norm_num)]
    norm_num
  rw [hkey]
  rw [hconst] at hmono
  linarith

/-- The C3 counterexample option terms. -/
noncomputable def treeCexOption : OptionPricing :=
  ⟨1, Real.exp (-Real.sqrt 500), 1, -Real.sqrt 500, 1⟩

lemma treeCex_d1 : treeCexOption.d1 = 1 / 2 := by
  simp only [treeCexOption, OptionPricing.d1]
  rw [Real.sqrt_one, one_div, Real.log_inv, Real.log_exp]
  norm_num

lemma treeCex_d2 : treeCexOption.d2 = -(1 / 2) := by
  unfold OptionPricing.d2
  rw [treeCex_d1]
  simp only [treeCexOption]
  rw [Real.sqrt_one]
  norm_num

lemma treeCex_bs_val : treeCexOption.bs_call_val = 2 * normCdf (1 / 2) - 1 := by
  unfold OptionPricing.bs_call_val
  rw [treeCex_d1, treeCex_d2]
  simp only [treeCexOption, neg_neg, mul_one]
  have hprod : Real.exp (-Real.sqrt 500) * Real.exp (Real.sqrt 500) = 1 := by
    rw [← Real.exp_add]
    simp
  rw [hprod]
  have hsym := normCdf_add_neg (1 / 2 : ℝ)
  linarith

lemma treeCex_u_eq : treeCexOption.tree_u 500 = Real.exp ((Real.sqrt 500)⁻¹) := by
  unfold OptionPricing.tree_u OptionPricing.tree_dt
  simp only [treeCexOption]
  rw [show ((1 : ℝ) / ((500 : ℕ) : ℝ)) = ((500 : ℝ))⁻¹ by norm_num]
  rw [Real.sqrt_inv, one_mul]

lemma treeCex_d_eq : treeCexOption.tree_d 500 = Real.exp (-(Real.sqrt 500)⁻¹) := by
  unfold OptionPricing.tree_d
  rw [treeCex_u_eq, one_div, ← Real.exp_neg]

lemma treeCex_rdt : OptionPricing.risk_free_rate treeCexOption
    * treeCexOption.tree_dt 500 = -(Real.sqrt 500)⁻¹ := by
  have haa : Real.sqrt 500 * Real.sqrt 500 = 500 :=
    Real.mul_self_sqrt (by norm_num)
  have ha0 : Real.sqrt 500 ≠ 0 := ne_of_gt (Real.sqrt_pos.mpr (by norm_num))
  unfold OptionPricing.tree_dt
  simp only [treeCexOption]
  rw [show ((1 : ℝ) / ((500 : ℕ) : ℝ)) = ((500 : ℝ))⁻¹ by norm_num]
  rw [show ((500 : ℝ))⁻¹ = (Real.sqrt 500 * Real.sqrt 500)⁻¹ by rw [haa]]
  field_simp

lemma treeCex_p_zero : treeCexOption.tree_p 500 = 0 := by
  unfold OptionPricing.tree_p
  rw [treeCex_rdt]
  have hnum : Real.exp (-(Real.sqrt 500)⁻¹) - treeCexOption.tree_d 500 = 0 := by
    rw [treeCex_d_eq]
    exact sub_self _
  rw [hnum, zero_div]

lemma treeCex_d_pow : treeCexOption.tree_d 500 ^ 500
    = Real.exp (-Real.sqrt 500) := by
  have haa : Real.sqrt 500 * Real.sqrt 500 = 500 :=
    Real.mul_self_sqrt (by norm_num)
  have ha0 : Real.sqrt 500 ≠ 0 := ne_of_gt (Real.sqrt_pos.mpr (by norm_num))
  rw [treeCex_d_eq, ← Real.exp_nat_mul]
  congr 1
  have : ((500 : ℕ) : ℝ) = Real.sqrt 500 * Real.sqrt 500 := by
    rw [haa]; norm_num
  rw [this]
  field_simp

lemma treeCex_terminal_head :
    (treeCexOption.terminal_values 500 "call").getD 0 0 = 0 := by
  unfold OptionPricing.terminal_values
  rw [List.range_succ_eq_map]
  simp only [List.map_cons, List.getD_cons_zero]
  rw [if_pos trivial]
  rw [pow_zero, Nat.sub_zero, treeCex_d_pow]
  simp only [treeCexOption, one_mul, mul_one]
  rw [sub_self]
  exact max_self 0

lemma backward_induction_head_p_zero (disc : ℝ) :
    ∀ (k : ℕ) (v : List ℝ),
      (backward_induction disc 0 k v).getD 0 0 = disc ^ k * v.getD 0 0
  | 0, v => by
    rw [backward_induction]
    rw [pow_zero, one_mul]
  | k + 1, v => by
    rw [backward_induction, backward_induction_head_p_zero disc k]
    rw [List.range_succ_eq_map]
    simp only [List.map_cons, List.getD_cons_zero]
    ring

lemma treeCex_tree_val : treeCexOption.binomial_tree_val 500 "call" = 0 := by
  unfold OptionPricing.binomial_tree_val
  rw [treeCex_p_zero, backward_induction_head_p_zero, treeCex_terminal_head,
    mul_zero]

lemma treeCex_bundle :
    (0 < treeCexOption.spot_price ∧ 0 < treeCexOption.strike_price
      ∧ 0 < treeCexOption.time_to_maturity ∧ 0 < treeCexOption.volatility)
  ∧ treeCexOption.black_scholes_call = some treeCexOption.bs_call_val
  ∧ treeCexOption.binomial_tree_option 500 "call"
      = some (treeCexOption.binomial_tree_val 500 "call")
  ∧ 1 / 100 < |treeCexOption.binomial_tree_val 500 "call"
      - treeCexOption.bs_call_val| := by
  have hpos : (0 < treeCexOption.spot_price ∧ 0 < treeCexOption.strike_price
      ∧ 0 < treeCexOption.time_to_maturity ∧ 0 < treeCexOption.volatility) := by
    refine ⟨by norm_num [treeCexOption], ?_, by norm_num [treeCexOption],
      by norm_num [treeCexOption]⟩
    simp only [treeCexOption]
    exact Real.exp_pos _
  have hbs : treeCexOption.black_scholes_call = some treeCexOption.bs_call_val := by
    unfold OptionPricing.black_scholes_call
    rw [if_neg]
    apply bs_no_domain_error treeCexOption hpos.1 hpos.2.1 (le_of_lt hpos.2.2.1)
    simp only [treeCexOption]
    rw [Real.sqrt_one, mul_one]
    norm_num
  refine ⟨hpos, hbs,
    binomial_tree_defined treeCexOption 500 "call"
      (ne_of_gt hpos.2.2.2) hpos.2.2.1 (by norm_num), ?_⟩
  rw [treeCex_tree_val, treeCex_bs_val]
  have hgap := normCdf_half_gap
  rw [zero_sub, abs_neg, abs_of_pos (by linarith)]
  exact hgap

/-- C3 counterexample. A valid option (spot = 1, strike = e^(−√500),
T = 1, σ = 1, r = −√500) on which both pricers succeed, yet the 500-step
binomial tree (exactly 0, since p = 0) differs from the Black-Scholes call
(`2Φ(1/2) − 1 > 1/100`) by more than the claimed 1e-2 absolute tolerance. -/
theorem binomial_bs_tolerance_counterexample :
    (0 < treeCexOption.spot_price ∧ 0 < treeCexOption.strike_price
      ∧ 0 < treeCexOption.time_to_maturity ∧ 0 < treeCexOption.volatility)
  ∧ treeCexOption.black_scholes_call = some treeCexOption.bs_call_val
  ∧ treeCexOption.binomial_tree_option 500 "call"
      = some (treeCexOption.binomial_tree_val 500 "call")
  ∧ ¬ (|treeCexOption.binomial_tree_val 500 "call"
        - treeCexOption.bs_call_val| ≤ 1 / 100) := by
  obtain ⟨hpos, hbs, htree, hgap⟩ := treeCex_bundle
  exact ⟨hpos, hbs, htree, not_le.mpr hgap⟩

/-- C3 (amended). The steps = 500 / 1e-2 agreement between the CRR
tree and Black-Scholes is not universal: there are options with spot,
strike, time and volatility all positive, on which both pricers return
values, whose 500-step tree price differs from the Black-Scholes call
price by more than 1e-2. -/
theorem binomial_bs_no_uniform_tolerance :
    ∃ o : OptionPricing,
      (0 < o.spot_price ∧ 0 < o.strike_price
        ∧ 0 < o.time_to_maturity ∧ 0 < o.volatility)
      ∧ o.black_scholes_call = some o.bs_call_val
      ∧ o.binomial_tree_option 500 "call" = some (o.binomial_tree_val 500 "call")
      ∧ 1 / 100 < |o.binomial_tree_val 500 "call" - o.bs_call_val| :=
  ⟨treeCexOption, treeCex_bundle⟩

end POA
